import Mathlib

set_option maxRecDepth 2000

/-!
Verification of the simplecoin_rpc_client payout reconciliation engine
(src/simplecoin_rpc_client/sc_rpc.py) against its natural-language spec.

The single source file is shallowly embedded below.  The sqlite `payouts`
table is a `List Payout`; each RPC-client method becomes a pure function
from the durable table (plus the external inputs the method consumes:
wallet responses, remote-authority responses, operator input) to the new
durable table and the method's reported outcome.  Session mutations that
the code rolls back never reach the durable list; a `commit` is modelled
by returning the mutated list.

Python `float` amounts are modelled as exact rationals; the one place the
code rounds (`round(float(amount), 8)` in `send_payout`) is modelled by
`roundTo8`, rounding to the nearest multiple of 10⁻⁸ (Python 2 `round`
rounds half away from zero).  Python 2 dict iteration order is modelled
as insertion order.
-/

/-- Embedding of the `Payout` ORM row (class `Payout` in sc_rpc.py). -/
structure Payout where
  id : Nat
  pid : String
  user : String
  address : String
  amount : ℚ
  currency_code : String
  txid : Option String
  associated : Bool
  locked : Bool
  lock_time : Option Nat
  paid_time : Option Nat
  assoc_time : Option Nat
  pull_time : Option Nat
deriving DecidableEq, Repr

/-- One row of the `get_payouts` response from the remote authority:
`(user, address, amount, pid)`. -/
structure RemotePayout where
  user : String
  address : String
  amount : ℚ
  pid : String
deriving DecidableEq, Repr

/-- The wallet responses one `send_payout` invocation can consume:
the liveness probe, the pre-submission balance, the `send_many` result
(`none` models a raised `CoinRPCException`), and the balance re-queried
after a failed submission. -/
structure WalletEnv where
  poke_ok : Bool
  balance : ℚ
  send_result : Option String
  new_balance : ℚ

/-- Python 2 `round` at integer arguments: round half away from zero. -/
def roundHalfAwayZ (q : ℚ) : ℤ :=
  if 0 ≤ q then ⌊q + 1/2⌋ else -⌊-q + 1/2⌋

/-- Python `round(x, 8)`: round to the nearest multiple of 10⁻⁸. -/
def roundTo8 (q : ℚ) : ℚ :=
  (roundHalfAwayZ (q * 100000000) : ℚ) / 100000000

/-- Selection predicate of `send_payout`:
`filter_by(txid=None, locked=False, currency_code=cc)`. -/
def isSelected (cc : String) (p : Payout) : Bool :=
  p.txid.isNone && !p.locked && p.currency_code == cc

/-- The list of payouts `send_payout` grabs for this cycle. -/
def selectPayouts (cc : String) (db : List Payout) : List Payout :=
  db.filter (isSelected cc)

/-- The update `address_payout_amounts.setdefault(addr, 0.0); ... += amount` on an
insertion-ordered association list. -/
def addAmount : List (String × ℚ) → String → ℚ → List (String × ℚ)
  | [], a, amt => [(a, amt)]
  | (b, v) :: rest, a, amt =>
    if b = a then (b, v + amt) :: rest else (b, v) :: addAmount rest a amt

/-- The per-address aggregation loop of `send_payout`. -/
def aggregate (ps : List Payout) : List (String × ℚ) :=
  ps.foldl (fun acc p => addAmount acc p.address p.amount) []

/-- The exclusion loop of `send_payout`: enumerate the aggregated
addresses; round each amount; drop an address when the rounded amount is
below `minimum_tx_output` or its index exceeds `payout_output_limit`.
Returns the surviving `(address, rounded amount)` outputs and the list of
excluded addresses. -/
def filterOutputs (minOut : ℚ) (limit : Nat) :
    Nat → List (String × ℚ) → List (String × ℚ) × List String
  | _, [] => ([], [])
  | i, (a, v) :: rest =>
    if roundTo8 v < minOut ∨ i > limit then
      ((filterOutputs minOut limit (i + 1) rest).1,
        a :: (filterOutputs minOut limit (i + 1) rest).2)
    else
      ((a, roundTo8 v) :: (filterOutputs minOut limit (i + 1) rest).1,
        (filterOutputs minOut limit (i + 1) rest).2)

/-- Aggregated outputs of this cycle. -/
def spAgg (cc : String) (db : List Payout) : List (String × ℚ) :=
  aggregate (selectPayouts cc db)

/-- Surviving outputs (the dict passed to `send_many`). -/
def spSurv (cc : String) (minOut : ℚ) (limit : Nat) (db : List Payout) :
    List (String × ℚ) :=
  (filterOutputs minOut limit 0 (spAgg cc db)).1

/-- Addresses excluded by the threshold / output-limit check. -/
def spExcl (cc : String) (minOut : ℚ) (limit : Nat) (db : List Payout) :
    List String :=
  (filterOutputs minOut limit 0 (spAgg cc db)).2

/-- The sum `total_out = sum(address_payout_amounts.values())` after exclusion. -/
def spTotal (cc : String) (minOut : ℚ) (limit : Nat) (db : List Payout) : ℚ :=
  ((spSurv cc minOut limit db).map Prod.snd).sum

/-- Effect, on one selected payout, of the lock loop followed by the
exclusion loop: excluded addresses end unlocked with `lock_time` cleared,
the rest end locked with `lock_time = now`.  This is the state committed
just before submission. -/
def preSendOne (now : Nat) (excl : List String) (p : Payout) : Payout :=
  if p.address ∈ excl then { p with locked := false, lock_time := none }
  else { p with locked := true, lock_time := some now }

/-- Effect of the success loop on one payout object: payouts whose address
is in the submitted dict get the txid, a paid time, and are unlocked. -/
def successOne (survA : List String) (txid : String) (now : Nat) (q : Payout) :
    Payout :=
  if q.address ∈ survA then
    { q with locked := false, txid := some txid, paid_time := some now }
  else q

/-- Effect of the safe-failure loop on one payout object:
`payout.locked = False` for every selected payout (only `locked`). -/
def safeFailOne (q : Payout) : Payout := { q with locked := false }

/-- Whole-table map for the ambiguous-failure outcome: the table stays as
committed before submission. -/
def spAmbiguousOne (cc : String) (now : Nat) (excl : List String) (p : Payout) :
    Payout :=
  if isSelected cc p then preSendOne now excl p else p

/-- Whole-table map for the safe-failure outcome. -/
def spSafeFailOne (cc : String) (now : Nat) (excl : List String) (p : Payout) :
    Payout :=
  if isSelected cc p then safeFailOne (preSendOne now excl p) else p

/-- Whole-table map for the success outcome. -/
def spSuccessOne (cc : String) (survA : List String) (txid : String)
    (now : Nat) (excl : List String) (p : Payout) : Payout :=
  if isSelected cc p then successOne survA txid now (preSendOne now excl p)
  else p

/-- Whole-table map for the simulate-with-confirmation path: the session
was rolled back before the success loop, so the success loop applies to
the original rows. -/
def spSimSuccessOne (cc : String) (survA : List String) (txid : String)
    (now : Nat) (p : Payout) : Payout :=
  if isSelected cc p then successOne survA txid now p else p

/-- Outcome reported by `send_payout` (its Python return value). -/
inductive SPOutcome where
  | pokeFail
  | noPayouts
  | insufficientFunds
  | zeroTotal
  | simExit
  | simAssoc (txid : String)
  | ambiguousFail
  | safeFail
  | success (txid : String)
deriving DecidableEq, Repr

/-- Whether the Python return value of the outcome is `False`. -/
def reportsFailure : SPOutcome → Bool
  | .pokeFail => true
  | .insufficientFunds => true
  | .ambiguousFail => true
  | .safeFail => true
  | _ => false

/-- Result of one `send_payout` invocation: the durable table afterwards,
the reported outcome, and the dict passed to `send_many` (`none` when
`send_many` was never called). -/
structure SPResult where
  db : List Payout
  outcome : SPOutcome
  submitted : Option (List (String × ℚ))
deriving DecidableEq, Repr

/-- The hard-coded txid offered in simulation mode. -/
def fakeTxid : String :=
  "1111111111111111111111111111111111111111111111111111111111111111"

/-- Embedding of `SCRPCClient.send_payout`.  `answerY` is whether the
operator answers `y` to the simulation prompt. -/
def send_payout (cc : String) (minOut : ℚ) (limit : Nat) (env : WalletEnv)
    (simulate answerY : Bool) (now : Nat) (db : List Payout) : SPResult :=
  if env.poke_ok = false then ⟨db, .pokeFail, none⟩
  else if (selectPayouts cc db).isEmpty then ⟨db, .noPayouts, none⟩
  else if env.balance < spTotal cc minOut limit db then
    ⟨db, .insufficientFunds, none⟩
  else if spTotal cc minOut limit db = 0 then ⟨db, .zeroTotal, none⟩
  else if simulate then
    if answerY then
      ⟨db.map (spSimSuccessOne cc ((spSurv cc minOut limit db).map Prod.fst)
          fakeTxid now),
        .simAssoc fakeTxid, none⟩
    else ⟨db, .simExit, none⟩
  else
    match env.send_result with
    | some t =>
      ⟨db.map (spSuccessOne cc ((spSurv cc minOut limit db).map Prod.fst) t
          now (spExcl cc minOut limit db)),
        .success t, some (spSurv cc minOut limit db)⟩
    | none =>
      if env.new_balance = env.balance then
        ⟨db.map (spSafeFailOne cc now (spExcl cc minOut limit db)), .safeFail,
          some (spSurv cc minOut limit db)⟩
      else
        ⟨db.map (spAmbiguousOne cc now (spExcl cc minOut limit db)),
          .ambiguousFail, some (spSurv cc minOut limit db)⟩

/-- Embedding of `SCRPCClient.pull_payouts` processing one candidate row:
invalid address → skip; `pid` already present (the session autoflushes, so
rows added earlier in the same run are seen) → skip; simulating → skip;
otherwise insert a fresh `PULLED` row. -/
def pullOne (cc : String) (validAddr : String → Bool) (simulate : Bool)
    (now : Nat) (db : List Payout) (r : RemotePayout) : List Payout :=
  if !validAddr r.address then db
  else if db.any (fun p => p.pid == r.pid) then db
  else if simulate then db
  else db ++ [{ id := db.length + 1, pid := r.pid, user := r.user,
                address := r.address, amount := r.amount,
                currency_code := cc, txid := none, associated := false,
                locked := false, lock_time := none, paid_time := none,
                assoc_time := none, pull_time := some now }]

/-- Embedding of `SCRPCClient.pull_payouts`.  `remote = none` models a
`ConnectionError` from the authority; the run then mutates nothing. -/
def pull_payouts (cc : String) (validAddr : String → Bool) (simulate : Bool)
    (now : Nat) (remote : Option (List RemotePayout)) (db : List Payout) :
    List Payout :=
  match remote with
  | none => db
  | some rs => rs.foldl (pullOne cc validAddr simulate now) db

/-- The `associate_all` candidate filter:
`filter_by(associated=False, currency_code=cc).filter(txid != None)`. -/
def isAssocCandidate (cc : String) (p : Payout) : Bool :=
  !p.associated && p.currency_code == cc && p.txid.isSome

/-- The update `txids.setdefault(txid, []); txids[txid].append(payout)` on an
insertion-ordered association list. -/
def addGroup : List (String × List Payout) → String → Payout →
    List (String × List Payout)
  | [], t, p => [(t, [p])]
  | (s, ps) :: rest, t, p =>
    if s = t then (s, ps ++ [p]) :: rest else (s, ps) :: addGroup rest t p

/-- Group the candidate payouts by `txid`, first-seen key order. -/
def groupByTxid (ps : List Payout) : List (String × List Payout) :=
  ps.foldl
    (fun acc p => match p.txid with
      | some t => addGroup acc t p
      | none => acc) []

/-- Marking one txid group associated after the remote authority
acknowledged the push (`associate`, success branch). -/
def markAssociated (cc : String) (t : String) (now : Nat)
    (db : List Payout) : List Payout :=
  db.map (fun p =>
    if isAssocCandidate cc p && p.txid == some t then
      { p with associated := true, assoc_time := some now }
    else p)

/-- The final loop of `associate_all` over the grouped txids.  The code
iterates over ALL txids in the group dict and evaluates `tx_fees[txid]`
at the call site, so a txid whose fee lookup failed (absent from
`tx_fees`) raises `KeyError`; the `crontab` wrapper catches it and the
whole pass aborts, leaving the txids not yet visited unprocessed.
Returns the durable table and the list of txids actually posted to the
remote authority. -/
def assocLoop (cc : String) (feeLookup : String → Option ℚ)
    (pushOk : String → Bool) (simulate : Bool) (now : Nat) :
    List String → List Payout → List String → List Payout × List String
  | [], db, pushed => (db, pushed.reverse)
  | t :: rest, db, pushed =>
    match feeLookup t with
    | none => (db, pushed.reverse)
    | some _ =>
      if simulate then assocLoop cc feeLookup pushOk simulate now rest db pushed
      else if pushOk t then
        assocLoop cc feeLookup pushOk simulate now rest
          (markAssociated cc t now db) (t :: pushed)
      else assocLoop cc feeLookup pushOk simulate now rest db (t :: pushed)

/-- Embedding of `SCRPCClient.associate_all` (with `associate` inlined).
`feeLookup t = none` models `get_transaction(t)` raising; `pushOk t` is
the `result` field of the authority's `associate_payouts` response. -/
def associate_all (cc : String) (feeLookup : String → Option ℚ)
    (pushOk : String → Bool) (simulate : Bool) (now : Nat)
    (db : List Payout) : List Payout × List String :=
  assocLoop cc feeLookup pushOk simulate now
    ((groupByTxid (db.filter (isAssocCandidate cc))).map Prod.fst) db []

/-- Embedding of `SCRPCClient.local_associate_locked`.  The code calls
`.id` on the LIST returned by `.all()` and always raises
`AttributeError` before reaching the simulate check or any mutation; the
`crontab` wrapper catches it, so the table is never changed. -/
def local_associate_locked (pid : Nat) (tx : String) (simulate : Bool)
    (db : List Payout) : List Payout :=
  db

/-- Embedding of `SCRPCClient.local_associate_all_locked`: every payout of
this currency with `txid=None, locked=True` gets `txid := tx` (only the
txid field; the row stays locked). -/
def local_associate_all_locked (cc : String) (tx : String) (simulate : Bool)
    (db : List Payout) : List Payout :=
  if simulate then db
  else db.map (fun p =>
    if p.txid.isNone && p.locked && p.currency_code == cc then
      { p with txid := some tx }
    else p)

/-- The bulk `UPDATE` issued by `reset_all_locked` on one row. -/
def resetOne (p : Payout) : Payout :=
  if p.locked then { p with locked := false } else p

/-- Embedding of `SCRPCClient.reset_all_locked`: sets `locked := false` on
every locked row, with no currency filter and touching no other field. -/
def reset_all_locked (simulate : Bool) (db : List Payout) : List Payout :=
  if simulate then db else db.map resetOne

/-- Embedding of `SCRPCClient.init_db`: drops and recreates the table.
The code accepts a `simulate` argument but never consults it. -/
def init_db (simulate : Bool) (db : List Payout) : List Payout :=
  []

/-- The confirmation loop of `confirm_trans`: look up each candidate txid
in the wallet and collect those above the confirmation threshold.
`lookup t = none` models `get_transaction` raising `CoinRPCException`;
the exception is uncaught inside the loop, so the whole pass aborts
(`none`) and nothing is pushed. -/
def collectConfirmed (minConfirms : Nat) (lookup : String → Option Nat) :
    List String → Option (List String)
  | [] => some []
  | t :: rest =>
    match lookup t with
    | none => none
    | some c =>
      match collectConfirmed minConfirms lookup rest with
      | none => none
      | some l => some (if minConfirms < c then t :: l else l)

/-- Embedding of `SCRPCClient.confirm_trans`.  `fetched` is the list of
unconfirmed txids the remote authority returned (`none` models a failed
fetch).  The result is the `tids` list posted to `confirm_transactions`,
or `none` when no push happened (early exit, simulation, abort, or an
empty confirmed set). -/
def confirm_trans (minConfirms : Nat) (pokeOk : Bool)
    (fetched : Option (List String)) (lookup : String → Option Nat)
    (simulate : Bool) : Option (List String) :=
  if pokeOk = false then none
  else
    match fetched with
    | none => none
    | some [] => none
    | some tids =>
      match collectConfirmed minConfirms lookup tids with
      | none => none
      | some confirmed =>
        if simulate then none
        else if confirmed.isEmpty then none
        else some confirmed

/-- The operations of the client that touch the payout table, with the
external inputs each consumes. -/
inductive ClientOp where
  | pullOp (validAddr : String → Bool) (remote : Option (List RemotePayout))
      (simulate : Bool) (now : Nat)
  | sendOp (env : WalletEnv) (limit : Nat) (simulate answerY : Bool)
      (now : Nat)
  | assocAllOp (feeLookup : String → Option ℚ) (pushOk : String → Bool)
      (simulate : Bool) (now : Nat)
  | localAssocOp (pid : Nat) (tx : String) (simulate : Bool)
  | localAssocAllOp (tx : String) (simulate : Bool)
  | resetLockedOp (simulate : Bool)
  | initDbOp (simulate : Bool)

/-- Effect of one client operation on the durable payout table. -/
def applyOp (cc : String) (minOut : ℚ) (db : List Payout) :
    ClientOp → List Payout
  | .pullOp v remote s n => pull_payouts cc v s n remote db
  | .sendOp env limit s aY n => (send_payout cc minOut limit env s aY n db).db
  | .assocAllOp fl po s n => (associate_all cc fl po s n db).1
  | .localAssocOp pid tx s => local_associate_locked pid tx s db
  | .localAssocAllOp tx s => local_associate_all_locked cc tx s db
  | .resetLockedOp s => reset_all_locked s db
  | .initDbOp s => init_db s db

/-! ### Helper lemmas about the aggregation association list -/

/-- Lookup in an association list of per-address amounts. -/
def lookupA : List (String × ℚ) → String → Option ℚ
  | [], _ => none
  | (b, v) :: rest, a => if b = a then some v else lookupA rest a

/-- The aggregated amount recorded for an address (0 when absent). -/
def amtFor (l : List (String × ℚ)) (a : String) : ℚ :=
  (lookupA l a).getD 0

/-- Sum of the `amount` fields of a list of payouts. -/
def sumAmounts (ps : List Payout) : ℚ :=
  (ps.map Payout.amount).sum

theorem amtFor_addAmount (l : List (String × ℚ)) (k : String) (amt : ℚ)
    (a : String) :
    amtFor (addAmount l k amt) a = amtFor l a + if k = a then amt else 0 := by
  induction l with
  | nil =>
    by_cases h : k = a
    · simp [addAmount, amtFor, lookupA, h]
    · simp [addAmount, amtFor, lookupA, h]
  | cons hd tl ih =>
    obtain ⟨c, v⟩ := hd
    by_cases hck : c = k
    · by_cases hca : c = a
      · have hka : k = a := hck.symm.trans hca
        simp [addAmount, amtFor, lookupA, hck, hca, hka]
      · have hka : ¬ k = a := fun h => hca (hck.trans h)
        simp [addAmount, amtFor, lookupA, hck, hca, hka]
    · by_cases hca : c = a
      · have hka : ¬ k = a := fun h => hck (hca.trans h.symm)
        have hak : ¬ a = k := fun h => hck (hca.trans h)
        simp [addAmount, amtFor, lookupA, hck, hca, hka, hak]
      · simp only [addAmount, if_neg hck, amtFor, lookupA, if_neg hca]
        exact ih

theorem amtFor_foldl (ps : List Payout) (a : String) :
    ∀ acc : List (String × ℚ),
      amtFor (ps.foldl (fun acc p => addAmount acc p.address p.amount) acc) a
        = amtFor acc a + sumAmounts (ps.filter (fun p => p.address == a)) := by
  induction ps with
  | nil => intro acc; simp [sumAmounts]
  | cons p tl ih =>
    intro acc
    simp only [List.foldl_cons]
    rw [ih, amtFor_addAmount]
    by_cases h : p.address = a
    · have hb : (p.address == a) = true := beq_iff_eq.mpr h
      rw [if_pos h]
      simp only [List.filter_cons, hb, if_true, sumAmounts, List.map_cons,
        List.sum_cons]
      ring
    · have hb : (p.address == a) = false := beq_eq_false_iff_ne.mpr h
      rw [if_neg h]
      simp only [List.filter_cons, hb, Bool.false_eq_true, if_false]
      ring

theorem amtFor_aggregate (ps : List Payout) (a : String) :
    amtFor (aggregate ps) a
      = sumAmounts (ps.filter (fun p => p.address == a)) := by
  have h := amtFor_foldl ps a []
  simpa [aggregate, amtFor, lookupA] using h

theorem keys_addAmount (l : List (String × ℚ)) (k : String) (amt : ℚ) :
    (addAmount l k amt).map Prod.fst =
      if k ∈ l.map Prod.fst then l.map Prod.fst
      else l.map Prod.fst ++ [k] := by
  induction l with
  | nil => simp [addAmount]
  | cons hd tl ih =>
    obtain ⟨c, v⟩ := hd
    by_cases hck : c = k
    · subst hck
      simp [addAmount]
    · simp only [addAmount, if_neg hck, List.map_cons, ih]
      by_cases hm : k ∈ tl.map Prod.fst
      · have h2 : k ∈ c :: tl.map Prod.fst := List.mem_cons_of_mem _ hm
        simp [hm, h2]
      · have hkc : ¬ k = c := fun h => hck h.symm
        have h2 : k ∉ c :: tl.map Prod.fst := by
          simp [List.mem_cons, hkc, hm]
        simp [hm, h2]

theorem nodup_keys_addAmount (l : List (String × ℚ)) (k : String) (amt : ℚ)
    (h : (l.map Prod.fst).Nodup) :
    ((addAmount l k amt).map Prod.fst).Nodup := by
  rw [keys_addAmount]
  split_ifs with hm
  · exact h
  · refine List.Nodup.append h (List.nodup_singleton k) ?_
    intro x hx hy
    have hxk : x = k := by simpa using hy
    subst hxk
    exact hm hx

theorem aggregate_keys_nodup (ps : List Payout) :
    ((aggregate ps).map Prod.fst).Nodup := by
  suffices h : ∀ acc : List (String × ℚ), (acc.map Prod.fst).Nodup →
      (((ps.foldl (fun acc p => addAmount acc p.address p.amount) acc)).map
        Prod.fst).Nodup from h [] (by simp)
  induction ps with
  | nil => intro acc hacc; simpa using hacc
  | cons p tl ih =>
    intro acc hacc
    exact ih _ (nodup_keys_addAmount _ _ _ hacc)

theorem lookupA_eq_of_mem (l : List (String × ℚ)) (a : String) (v : ℚ)
    (hnd : (l.map Prod.fst).Nodup) (hm : (a, v) ∈ l) :
    lookupA l a = some v := by
  induction l with
  | nil => cases hm
  | cons hd tl ih =>
    obtain ⟨c, w⟩ := hd
    simp only [List.map_cons, List.nodup_cons] at hnd
    rcases List.mem_cons.mp hm with h1 | h1
    · injection h1 with h2 h3
      subst h2; subst h3
      simp [lookupA]
    · have hc : c ≠ a := by
        rintro rfl
        exact hnd.1 (List.mem_map.mpr ⟨(c, v), h1, rfl⟩)
      simp only [lookupA, if_neg hc]
      exact ih hnd.2 h1

/-! ### Generic sum and filter lemmas -/

theorem sumAmounts_cons (p : Payout) (l : List Payout) :
    sumAmounts (p :: l) = p.amount + sumAmounts l := by
  simp [sumAmounts]

theorem sumAmounts_map_filter (g : Payout → Payout) (q q' : Payout → Bool)
    (db : List Payout)
    (h : ∀ p ∈ db, q (g p) = q' p ∧ (g p).amount = p.amount) :
    sumAmounts ((db.map g).filter q) = sumAmounts (db.filter q') := by
  induction db with
  | nil => rfl
  | cons p tl ih =>
    have hp := h p (List.mem_cons_self p tl)
    have htl : ∀ x ∈ tl, q (g x) = q' x ∧ (g x).amount = x.amount :=
      fun x hx => h x (List.mem_cons_of_mem p hx)
    simp only [List.map_cons, List.filter_cons, hp.1]
    cases hq : q' p
    · simp only [Bool.false_eq_true, if_false]
      exact ih htl
    · simp only [if_true, sumAmounts_cons, hp.2, ih htl]

theorem filter_and_eq (f h : Payout → Bool) (db : List Payout) :
    db.filter (fun p => f p && h p) = (db.filter f).filter h := by
  induction db with
  | nil => rfl
  | cons p tl ih =>
    simp only [List.filter_cons]
    cases hf : f p <;> cases hh : h p <;>
      simp [hf, hh, ih]

/-! ### Helper lemmas about the exclusion loop -/

theorem filterOutputs_surv_mem (minOut : ℚ) (limit : Nat) (a : String)
    (v : ℚ) :
    ∀ (i : Nat) (l : List (String × ℚ)),
      (a, v) ∈ (filterOutputs minOut limit i l).1 →
      ∃ w, (a, w) ∈ l ∧ v = roundTo8 w ∧ ¬ roundTo8 w < minOut := by
  intro i l
  induction l generalizing i with
  | nil => simp [filterOutputs]
  | cons hd tl ih =>
    obtain ⟨b, w⟩ := hd
    simp only [filterOutputs]
    split_ifs with h
    · intro hm
      obtain ⟨w', hw', he, hge⟩ := ih (i + 1) hm
      exact ⟨w', List.mem_cons_of_mem _ hw', he, hge⟩
    · intro hm
      rcases List.mem_cons.mp hm with h1 | h1
      · injection h1 with h2 h3
        subst h2
        refine ⟨w, List.mem_cons_self _ _, h3, ?_⟩
        intro hlt
        exact h (Or.inl hlt)
      · obtain ⟨w', hw', he, hge⟩ := ih (i + 1) h1
        exact ⟨w', List.mem_cons_of_mem _ hw', he, hge⟩

theorem filterOutputs_surv_keys_sub (minOut : ℚ) (limit : Nat) :
    ∀ (i : Nat) (l : List (String × ℚ)),
      ((filterOutputs minOut limit i l).1.map Prod.fst) ⊆
        l.map Prod.fst := by
  intro i l
  induction l generalizing i with
  | nil => simp [filterOutputs]
  | cons hd tl ih =>
    obtain ⟨b, w⟩ := hd
    simp only [filterOutputs]
    split_ifs with h
    · exact fun x hx => List.mem_cons_of_mem _ (ih (i + 1) hx)
    · intro x hx
      rcases List.mem_cons.mp hx with h1 | h1
      · exact h1 ▸ List.mem_cons_self _ _
      · exact List.mem_cons_of_mem _ (ih (i + 1) h1)

theorem filterOutputs_excl_sub (minOut : ℚ) (limit : Nat) :
    ∀ (i : Nat) (l : List (String × ℚ)),
      (filterOutputs minOut limit i l).2 ⊆ l.map Prod.fst := by
  intro i l
  induction l generalizing i with
  | nil => simp [filterOutputs]
  | cons hd tl ih =>
    obtain ⟨b, w⟩ := hd
    simp only [filterOutputs]
    split_ifs with h
    · intro x hx
      rcases List.mem_cons.mp hx with h1 | h1
      · exact h1 ▸ List.mem_cons_self _ _
      · exact List.mem_cons_of_mem _ (ih (i + 1) h1)
    · exact fun x hx => List.mem_cons_of_mem _ (ih (i + 1) hx)

theorem filterOutputs_excl_of_low (minOut : ℚ) (limit : Nat) (a : String)
    (v : ℚ) (hlow : roundTo8 v < minOut) :
    ∀ (i : Nat) (l : List (String × ℚ)), (a, v) ∈ l →
      a ∈ (filterOutputs minOut limit i l).2 := by
  intro i l
  induction l generalizing i with
  | nil => simp
  | cons hd tl ih =>
    obtain ⟨b, w⟩ := hd
    intro hm
    simp only [filterOutputs]
    rcases List.mem_cons.mp hm with h1 | h1
    · injection h1 with h2 h3
      subst h2; subst h3
      rw [if_pos (Or.inl hlow)]
      exact List.mem_cons_self _ _
    · split_ifs with h
      · exact List.mem_cons_of_mem _ (ih (i + 1) h1)
      · exact ih (i + 1) h1

theorem filterOutputs_excl_not_surv (minOut : ℚ) (limit : Nat) :
    ∀ (i : Nat) (l : List (String × ℚ)), (l.map Prod.fst).Nodup →
      ∀ a, a ∈ (filterOutputs minOut limit i l).2 →
        a ∉ (filterOutputs minOut limit i l).1.map Prod.fst := by
  intro i l
  induction l generalizing i with
  | nil => simp [filterOutputs]
  | cons hd tl ih =>
    obtain ⟨b, w⟩ := hd
    intro hnd a
    simp only [List.map_cons, List.nodup_cons] at hnd
    simp only [filterOutputs]
    split_ifs with h
    · intro hx
      rcases List.mem_cons.mp hx with h1 | h1
      · subst h1
        intro hc
        exact hnd.1 (filterOutputs_surv_keys_sub minOut limit (i + 1) tl hc)
      · exact ih (i + 1) hnd.2 a h1
    · intro hx
      simp only [List.map_cons, List.mem_cons]
      rintro (h1 | h1)
      · subst h1
        exact hnd.1 (filterOutputs_excl_sub minOut limit (i + 1) tl hx)
      · exact ih (i + 1) hnd.2 a hx h1

/-! ### Reducing a full non-simulated send_payout run -/

theorem isSelected_spec (cc : String) (p : Payout)
    (h : isSelected cc p = true) :
    p.txid = none ∧ p.locked = false ∧ p.currency_code = cc := by
  simp only [isSelected, Bool.and_eq_true, Option.isNone_iff_eq_none,
    Bool.not_eq_true', beq_iff_eq] at h
  exact ⟨h.1.1, h.1.2, h.2⟩

theorem send_payout_run (cc : String) (minOut : ℚ) (limit : Nat)
    (env : WalletEnv) (answerY : Bool) (now : Nat) (db : List Payout)
    (hpoke : env.poke_ok = true)
    (hsel : (selectPayouts cc db).isEmpty = false)
    (hbal : ¬ env.balance < spTotal cc minOut limit db)
    (htot : ¬ spTotal cc minOut limit db = 0) :
    send_payout cc minOut limit env false answerY now db =
      match env.send_result with
      | some t =>
        ⟨db.map (spSuccessOne cc ((spSurv cc minOut limit db).map Prod.fst) t
            now (spExcl cc minOut limit db)), .success t,
          some (spSurv cc minOut limit db)⟩
      | none =>
        if env.new_balance = env.balance then
          ⟨db.map (spSafeFailOne cc now (spExcl cc minOut limit db)),
            .safeFail, some (spSurv cc minOut limit db)⟩
        else
          ⟨db.map (spAmbiguousOne cc now (spExcl cc minOut limit db)),
            .ambiguousFail, some (spSurv cc minOut limit db)⟩ := by
  rw [send_payout.eq_def]
  rw [if_neg (by simp [hpoke]), if_neg (by simp [hsel]), if_neg hbal,
    if_neg htot, if_neg (by simp)]

/-! ### Sample concrete data for witnesses -/

/-- A sample pulled, unpaid, unlocked payout row. -/
def sampleP : Payout :=
  ⟨1, "p1", "u1", "A", 1/2, "BTC", none, false, false, none, none, none,
    none⟩

/-- Wallet behaviour: submission raises, balance moved. -/
def envAmb : WalletEnv := ⟨true, 1, none, 0⟩

/-- Wallet behaviour: submission raises, balance unchanged. -/
def envSafe : WalletEnv := ⟨true, 1, none, 1⟩

/-- Wallet behaviour: submission succeeds with txid `T`. -/
def envOk : WalletEnv := ⟨true, 1, some "T", 1⟩

/-- Claim C1: in `send_payout`, when the wallet submission raises and the
re-queried balance differs from the pre-submission balance, the operation
reports failure and the table stays exactly as committed before
submission: no txid or paid time is written to any row, and every payout
of the submitted batch (selected, address among the surviving outputs)
stays `locked = true` with `txid = null`. -/
theorem send_payout_ambiguous_failure_keeps_locked
    (cc : String) (minOut : ℚ) (limit : Nat) (env : WalletEnv) (now : Nat)
    (db : List Payout)
    (hpoke : env.poke_ok = true)
    (hsel : (selectPayouts cc db).isEmpty = false)
    (hbal : ¬ env.balance < spTotal cc minOut limit db)
    (htot : ¬ spTotal cc minOut limit db = 0)
    (hsend : env.send_result = none)
    (hdiff : env.new_balance ≠ env.balance) :
    (send_payout cc minOut limit env false false now db).outcome =
        SPOutcome.ambiguousFail ∧
    reportsFailure
        (send_payout cc minOut limit env false false now db).outcome = true ∧
    (send_payout cc minOut limit env false false now db).db =
        db.map (spAmbiguousOne cc now (spExcl cc minOut limit db)) ∧
    (∀ p ∈ db,
      (spAmbiguousOne cc now (spExcl cc minOut limit db) p).txid = p.txid ∧
      (spAmbiguousOne cc now (spExcl cc minOut limit db) p).paid_time =
        p.paid_time) ∧
    (∀ p ∈ db, isSelected cc p = true →
      p.address ∈ (spSurv cc minOut limit db).map Prod.fst →
      (spAmbiguousOne cc now (spExcl cc minOut limit db) p).locked = true ∧
      (spAmbiguousOne cc now (spExcl cc minOut limit db) p).txid = none) := by
  have hrun := send_payout_run cc minOut limit env false now db hpoke hsel
    hbal htot
  rw [hsend] at hrun
  simp only [] at hrun
  rw [if_neg hdiff] at hrun
  refine ⟨by rw [hrun], by rw [hrun]; rfl, by rw [hrun], ?_, ?_⟩
  · intro p hp
    unfold spAmbiguousOne preSendOne
    split_ifs <;> simp
  · intro p hp hips hmem
    have hspec := isSelected_spec cc p hips
    have hnd : ((spAgg cc db).map Prod.fst).Nodup := aggregate_keys_nodup _
    have hnotex : p.address ∉ spExcl cc minOut limit db := by
      intro hex
      exact filterOutputs_excl_not_surv minOut limit 0 (spAgg cc db) hnd
        p.address hex hmem
    unfold spAmbiguousOne preSendOne
    rw [if_pos hips, if_neg hnotex]
    exact ⟨rfl, hspec.1⟩

/-- Witness for C1 at a concrete one-row table. -/
theorem send_payout_ambiguous_failure_keeps_locked_witness :
    (envAmb.poke_ok = true ∧
     (selectPayouts "BTC" [sampleP]).isEmpty = false ∧
     ¬ envAmb.balance < spTotal "BTC" (1/100000000) 10000 [sampleP] ∧
     ¬ spTotal "BTC" (1/100000000) 10000 [sampleP] = 0 ∧
     envAmb.send_result = none ∧
     envAmb.new_balance ≠ envAmb.balance) ∧
    (send_payout "BTC" (1/100000000) 10000 envAmb false false 5
        [sampleP]).outcome = SPOutcome.ambiguousFail :=
  ⟨⟨by with_unfolding_all decide, by with_unfolding_all decide,
    by with_unfolding_all decide, by with_unfolding_all decide,
    by with_unfolding_all decide, by with_unfolding_all decide⟩,
   (send_payout_ambiguous_failure_keeps_locked "BTC" (1/100000000) 10000
     envAmb 5 [sampleP]
     (by with_unfolding_all decide) (by with_unfolding_all decide)
     (by with_unfolding_all decide) (by with_unfolding_all decide)
     (by with_unfolding_all decide) (by with_unfolding_all decide)).1⟩

/-- Claim C3: in `send_payout`, when the wallet submission raises but the
re-queried balance equals the pre-submission balance, the operation
reports failure, every selected payout is committed back to
`locked = false`, and every selected payout again satisfies the selection
predicate (`txid = null, locked = false`, same currency), i.e. is
eligible for the next cycle. -/
theorem send_payout_safe_failure_unlocks
    (cc : String) (minOut : ℚ) (limit : Nat) (env : WalletEnv) (now : Nat)
    (db : List Payout)
    (hpoke : env.poke_ok = true)
    (hsel : (selectPayouts cc db).isEmpty = false)
    (hbal : ¬ env.balance < spTotal cc minOut limit db)
    (htot : ¬ spTotal cc minOut limit db = 0)
    (hsend : env.send_result = none)
    (hsame : env.new_balance = env.balance) :
    (send_payout cc minOut limit env false false now db).outcome =
        SPOutcome.safeFail ∧
    reportsFailure
        (send_payout cc minOut limit env false false now db).outcome = true ∧
    (send_payout cc minOut limit env false false now db).db =
        db.map (spSafeFailOne cc now (spExcl cc minOut limit db)) ∧
    (∀ p ∈ db, isSelected cc p = true →
      (spSafeFailOne cc now (spExcl cc minOut limit db) p).locked = false ∧
      (spSafeFailOne cc now (spExcl cc minOut limit db) p).txid = none ∧
      isSelected cc (spSafeFailOne cc now (spExcl cc minOut limit db) p) =
        true) ∧
    (∀ p ∈ db, isSelected cc p = false →
      spSafeFailOne cc now (spExcl cc minOut limit db) p = p) := by
  have hrun := send_payout_run cc minOut limit env false now db hpoke hsel
    hbal htot
  rw [hsend] at hrun
  simp only [] at hrun
  rw [if_pos hsame] at hrun
  refine ⟨by rw [hrun], by rw [hrun]; rfl, by rw [hrun], ?_, ?_⟩
  · intro p hp hips
    have hspec := isSelected_spec cc p hips
    unfold spSafeFailOne safeFailOne preSendOne
    rw [if_pos hips]
    split_ifs <;>
      simp [isSelected, hspec.1, hspec.2.2]
  · intro p hp hips
    unfold spSafeFailOne
    rw [if_neg (by simp [hips])]

/-- Witness for C3 at a concrete one-row table. -/
theorem send_payout_safe_failure_unlocks_witness :
    (envSafe.poke_ok = true ∧
     (selectPayouts "BTC" [sampleP]).isEmpty = false ∧
     ¬ envSafe.balance < spTotal "BTC" (1/100000000) 10000 [sampleP] ∧
     ¬ spTotal "BTC" (1/100000000) 10000 [sampleP] = 0 ∧
     envSafe.send_result = none ∧
     envSafe.new_balance = envSafe.balance) ∧
    (send_payout "BTC" (1/100000000) 10000 envSafe false false 5
        [sampleP]).outcome = SPOutcome.safeFail :=
  ⟨⟨by with_unfolding_all decide, by with_unfolding_all decide,
    by with_unfolding_all decide, by with_unfolding_all decide,
    by with_unfolding_all decide, by with_unfolding_all decide⟩,
   (send_payout_safe_failure_unlocks "BTC" (1/100000000) 10000
     envSafe 5 [sampleP]
     (by with_unfolding_all decide) (by with_unfolding_all decide)
     (by with_unfolding_all decide) (by with_unfolding_all decide)
     (by with_unfolding_all decide) (by with_unfolding_all decide)).1⟩

/-- A payout whose rounded amount (round(1e-9, 8) = 0) is below the
minimum payable output. -/
def lowP : Payout :=
  ⟨2, "p2", "u2", "B", 1/1000000000, "BTC", none, false, false, none, none,
    none, none⟩

/-- Claim C9: on the success path of `send_payout`, every aggregated
address whose rounded amount is below `minimum_tx_output` is excluded
from the dict submitted to `send_many`, and each of its selected payouts
ends unlocked with `lock_time` cleared and `txid` still null. -/
theorem send_payout_threshold_exclusion
    (cc : String) (minOut : ℚ) (limit : Nat) (env : WalletEnv) (now : Nat)
    (db : List Payout) (t : String) (a : String) (v : ℚ)
    (hpoke : env.poke_ok = true)
    (hsel : (selectPayouts cc db).isEmpty = false)
    (hbal : ¬ env.balance < spTotal cc minOut limit db)
    (htot : ¬ spTotal cc minOut limit db = 0)
    (hsend : env.send_result = some t)
    (hmem : (a, v) ∈ spAgg cc db)
    (hlow : roundTo8 v < minOut) :
    a ∉ (spSurv cc minOut limit db).map Prod.fst ∧
    (send_payout cc minOut limit env false false now db).submitted =
        some (spSurv cc minOut limit db) ∧
    (send_payout cc minOut limit env false false now db).db =
        db.map (spSuccessOne cc ((spSurv cc minOut limit db).map Prod.fst)
          t now (spExcl cc minOut limit db)) ∧
    (∀ p ∈ db, isSelected cc p = true → p.address = a →
      (spSuccessOne cc ((spSurv cc minOut limit db).map Prod.fst) t now
        (spExcl cc minOut limit db) p).locked = false ∧
      (spSuccessOne cc ((spSurv cc minOut limit db).map Prod.fst) t now
        (spExcl cc minOut limit db) p).lock_time = none ∧
      (spSuccessOne cc ((spSurv cc minOut limit db).map Prod.fst) t now
        (spExcl cc minOut limit db) p).txid = none) := by
  have hnd : ((spAgg cc db).map Prod.fst).Nodup := aggregate_keys_nodup _
  have hex : a ∈ spExcl cc minOut limit db :=
    filterOutputs_excl_of_low minOut limit a v hlow 0 (spAgg cc db) hmem
  have hns : a ∉ (spSurv cc minOut limit db).map Prod.fst :=
    filterOutputs_excl_not_surv minOut limit 0 (spAgg cc db) hnd a hex
  have hrun := send_payout_run cc minOut limit env false now db hpoke hsel
    hbal htot
  rw [hsend] at hrun
  simp only [] at hrun
  refine ⟨hns, by rw [hrun], by rw [hrun], ?_⟩
  intro p hp hips haddr
  have hspec := isSelected_spec cc p hips
  have hex' : p.address ∈ spExcl cc minOut limit db := by
    rw [haddr]; exact hex
  have hns' : p.address ∉ (spSurv cc minOut limit db).map Prod.fst := by
    rw [haddr]; exact hns
  unfold spSuccessOne successOne preSendOne
  rw [if_pos hips, if_pos hex']
  have hcond : ({ p with locked := false, lock_time := none } :
      Payout).address ∉ (spSurv cc minOut limit db).map Prod.fst := by
    simpa using hns'
  rw [if_neg hcond]
  exact ⟨rfl, rfl, hspec.1⟩

/-- Witness for C9: address `B` aggregates to 1e-9 which rounds to 0,
below the 1e-8 minimum; address `A` survives and is paid. -/
theorem send_payout_threshold_exclusion_witness :
    (envOk.poke_ok = true ∧
     (selectPayouts "BTC" [sampleP, lowP]).isEmpty = false ∧
     ¬ envOk.balance < spTotal "BTC" (1/100000000) 10000 [sampleP, lowP] ∧
     ¬ spTotal "BTC" (1/100000000) 10000 [sampleP, lowP] = 0 ∧
     envOk.send_result = some "T" ∧
     ("B", (1:ℚ)/1000000000) ∈ spAgg "BTC" [sampleP, lowP] ∧
     roundTo8 ((1:ℚ)/1000000000) < 1/100000000) ∧
    "B" ∉ (spSurv "BTC" (1/100000000) 10000 [sampleP, lowP]).map Prod.fst :=
  ⟨⟨by with_unfolding_all decide, by with_unfolding_all decide,
    by with_unfolding_all decide, by with_unfolding_all decide,
    by with_unfolding_all decide,
    List.mem_cons_of_mem _ (List.mem_cons_self _ _),
    by with_unfolding_all decide⟩,
   (send_payout_threshold_exclusion "BTC" (1/100000000) 10000 envOk 5
     [sampleP, lowP] "T" "B" (1/1000000000)
     (by with_unfolding_all decide) (by with_unfolding_all decide)
     (by with_unfolding_all decide) (by with_unfolding_all decide)
     (by with_unfolding_all decide)
     (List.mem_cons_of_mem _ (List.mem_cons_self _ _))
     (by with_unfolding_all decide)).1⟩

theorem preSendOne_txid (now : Nat) (excl : List String) (p : Payout) :
    (preSendOne now excl p).txid = p.txid := by
  unfold preSendOne; split_ifs <;> rfl

theorem preSendOne_address (now : Nat) (excl : List String) (p : Payout) :
    (preSendOne now excl p).address = p.address := by
  unfold preSendOne; split_ifs <;> rfl

theorem preSendOne_amount (now : Nat) (excl : List String) (p : Payout) :
    (preSendOne now excl p).amount = p.amount := by
  unfold preSendOne; split_ifs <;> rfl

theorem successOne_address (survA : List String) (txid : String) (now : Nat)
    (q : Payout) : (successOne survA txid now q).address = q.address := by
  unfold successOne; split_ifs <;> rfl

theorem successOne_amount (survA : List String) (txid : String) (now : Nat)
    (q : Payout) : (successOne survA txid now q).amount = q.amount := by
  unfold successOne; split_ifs <;> rfl

/-- A payout whose exact amount 1.2e-8 is not a multiple of the wallet
minimum unit 1e-8. -/
def fracP : Payout :=
  ⟨1, "p3", "u3", "A", 12/1000000000, "BTC", none, false, false, none, none,
    none, none⟩

/-- Counterexample to claim C2 as stated: with a single obligation of
amount 1.2e-8, the output submitted to `send_many` for address `A` is the
rounded 1e-8, while the sum of the `amount` fields of the obligations
assigned the txid is the exact 1.2e-8 — the two differ. -/
theorem conservation_exact_sum_fails :
    (send_payout "BTC" (1/100000000) 10000 envOk false false 5
        [fracP]).submitted = some [("A", 1/100000000)] ∧
    sumAmounts (((send_payout "BTC" (1/100000000) 10000 envOk false false 5
        [fracP]).db).filter
        (fun p => p.txid == some "T" && p.address == "A")) =
      12/1000000000 ∧
    ((12:ℚ)/1000000000 ≠ 1/100000000) :=
  ⟨by with_unfolding_all rfl, by with_unfolding_all rfl,
    by with_unfolding_all decide⟩

/-- Claim C2 (amended): on the success path of `send_payout` with a fresh
wallet txid `t`, the per-address output value passed to `send_many`
equals the sum of the `amount` fields of the obligations assigned
`txid = t` at that address, rounded to eight decimal places (exact
equality therefore holds exactly when that sum is a multiple of 1e-8). -/
theorem send_payout_conservation
    (cc : String) (minOut : ℚ) (limit : Nat) (env : WalletEnv) (now : Nat)
    (db : List Payout) (t : String)
    (hpoke : env.poke_ok = true)
    (hsel : (selectPayouts cc db).isEmpty = false)
    (hbal : ¬ env.balance < spTotal cc minOut limit db)
    (htot : ¬ spTotal cc minOut limit db = 0)
    (hsend : env.send_result = some t)
    (hfresh : ∀ p ∈ db, p.txid ≠ some t) :
    (send_payout cc minOut limit env false false now db).submitted =
        some (spSurv cc minOut limit db) ∧
    (send_payout cc minOut limit env false false now db).outcome =
        SPOutcome.success t ∧
    ∀ av ∈ spSurv cc minOut limit db,
      av.2 = roundTo8 (sumAmounts
        (((send_payout cc minOut limit env false false now db).db).filter
          (fun p => p.txid == some t && p.address == av.1))) := by
  have hrun := send_payout_run cc minOut limit env false now db hpoke hsel
    hbal htot
  rw [hsend] at hrun
  simp only [] at hrun
  refine ⟨by rw [hrun], by rw [hrun], ?_⟩
  intro av hav
  obtain ⟨a, v⟩ := av
  obtain ⟨w, hwmem, hkeq, hge⟩ :=
    filterOutputs_surv_mem minOut limit a v 0 (spAgg cc db) hav
  have hnd : ((spAgg cc db).map Prod.fst).Nodup := aggregate_keys_nodup _
  have hlook : lookupA (spAgg cc db) a = some w :=
    lookupA_eq_of_mem _ _ _ hnd hwmem
  have hw : w = sumAmounts ((selectPayouts cc db).filter
      (fun p => p.address == a)) := by
    have h1 := amtFor_aggregate (selectPayouts cc db) a
    rw [show aggregate (selectPayouts cc db) = spAgg cc db from rfl] at h1
    rw [amtFor, hlook] at h1
    simpa using h1
  have hasurv : a ∈ (spSurv cc minOut limit db).map Prod.fst :=
    List.mem_map.mpr ⟨(a, v), hav, rfl⟩
  have hsum : sumAmounts
      ((db.map (spSuccessOne cc ((spSurv cc minOut limit db).map Prod.fst) t
        now (spExcl cc minOut limit db))).filter
        (fun p => p.txid == some t && p.address == a))
      = sumAmounts ((selectPayouts cc db).filter
        (fun p => p.address == a)) := by
    rw [sumAmounts_map_filter _ _ (fun p => isSelected cc p && p.address == a)
      db ?_]
    · rw [filter_and_eq (isSelected cc) (fun p => p.address == a) db]
      rfl
    · intro p hp
      constructor
      · by_cases hips : isSelected cc p = true
        · have hspec := isSelected_spec cc p hips
          have haddr : (spSuccessOne cc
              ((spSurv cc minOut limit db).map Prod.fst) t now
              (spExcl cc minOut limit db) p).address = p.address := by
            unfold spSuccessOne
            rw [if_pos hips, successOne_address, preSendOne_address]
          by_cases hm : p.address ∈ (spSurv cc minOut limit db).map Prod.fst
          · have htx : (spSuccessOne cc
                ((spSurv cc minOut limit db).map Prod.fst) t now
                (spExcl cc minOut limit db) p).txid = some t := by
              unfold spSuccessOne successOne
              rw [if_pos hips, preSendOne_address, if_pos hm]
            rw [htx, haddr]
            simp [hips]
          · have htx : (spSuccessOne cc
                ((spSurv cc minOut limit db).map Prod.fst) t now
                (spExcl cc minOut limit db) p).txid = p.txid := by
              unfold spSuccessOne successOne
              rw [if_pos hips, preSendOne_address, if_neg hm, preSendOne_txid]
            have hner : p.address ≠ a := fun he => hm (he ▸ hasurv)
            have h0 : ((none : Option String) == some t) = false := rfl
            rw [htx, haddr, hspec.1]
            simp [h0, hips, beq_eq_false_iff_ne.mpr hner]
        · have hips' : isSelected cc p = false := by
            simpa using hips
          have hfr : (p.txid == some t) = false :=
            beq_eq_false_iff_ne.mpr (hfresh p hp)
          unfold spSuccessOne
          rw [if_neg hips]
          simp [hfr, hips']
      · by_cases hips : isSelected cc p = true
        · unfold spSuccessOne
          rw [if_pos hips, successOne_amount, preSendOne_amount]
        · unfold spSuccessOne
          rw [if_neg hips]
  rw [hrun]
  simp only []
  rw [hsum, ← hw]
  exact hkeq

/-- Witness for the amended C2 at a concrete one-row table. -/
theorem send_payout_conservation_witness :
    (envOk.poke_ok = true ∧
     (selectPayouts "BTC" [sampleP]).isEmpty = false ∧
     ¬ envOk.balance < spTotal "BTC" (1/100000000) 10000 [sampleP] ∧
     ¬ spTotal "BTC" (1/100000000) 10000 [sampleP] = 0 ∧
     envOk.send_result = some "T" ∧
     (∀ p ∈ [sampleP], p.txid ≠ some "T")) ∧
    (send_payout "BTC" (1/100000000) 10000 envOk false false 5
        [sampleP]).submitted =
      some (spSurv "BTC" (1/100000000) 10000 [sampleP]) :=
  ⟨⟨by with_unfolding_all decide, by with_unfolding_all decide,
    by with_unfolding_all decide, by with_unfolding_all decide,
    by with_unfolding_all decide, by with_unfolding_all decide⟩,
   (send_payout_conservation "BTC" (1/100000000) 10000 envOk 5 [sampleP] "T"
     (by with_unfolding_all decide) (by with_unfolding_all decide)
     (by with_unfolding_all decide) (by with_unfolding_all decide)
     (by with_unfolding_all decide) (by with_unfolding_all decide)).1⟩

/-! ### Pull idempotence -/

theorem hasPid_pullOne_mono (cc : String) (validAddr : String → Bool)
    (now : Nat) (db : List Payout) (r : RemotePayout) (x : String)
    (h : db.any (fun p => p.pid == x) = true) :
    (pullOne cc validAddr false now db r).any (fun p => p.pid == x) = true := by
  unfold pullOne
  split_ifs <;> simp_all [List.any_append]

theorem hasPid_pullOne_self (cc : String) (validAddr : String → Bool)
    (now : Nat) (db : List Payout) (r : RemotePayout)
    (hv : validAddr r.address = true) :
    (pullOne cc validAddr false now db r).any
      (fun p => p.pid == r.pid) = true := by
  unfold pullOne
  rw [if_neg (by simp [hv])]
  by_cases h : db.any (fun p => p.pid == r.pid) = true
  · rw [if_pos h]; exact h
  · rw [if_neg h, if_neg (by simp)]
    simp [List.any_append]

theorem hasPid_foldl_mono (cc : String) (validAddr : String → Bool)
    (now : Nat) (rs : List RemotePayout) (x : String) :
    ∀ db : List Payout, db.any (fun p => p.pid == x) = true →
      (rs.foldl (pullOne cc validAddr false now) db).any
        (fun p => p.pid == x) = true := by
  induction rs with
  | nil => intro db h; simpa using h
  | cons r tl ih =>
    intro db h
    exact ih _ (hasPid_pullOne_mono cc validAddr now db r x h)

theorem pull_sees_all (cc : String) (validAddr : String → Bool) (now : Nat)
    (rs : List RemotePayout) :
    ∀ db : List Payout, ∀ r ∈ rs, validAddr r.address = true →
      (rs.foldl (pullOne cc validAddr false now) db).any
        (fun p => p.pid == r.pid) = true := by
  induction rs with
  | nil => intro db r h; cases h
  | cons r0 tl ih =>
    intro db r hr hv
    rcases List.mem_cons.mp hr with h1 | h1
    · subst h1
      simp only [List.foldl_cons]
      exact hasPid_foldl_mono cc validAddr now tl r.pid _
        (hasPid_pullOne_self cc validAddr now db r hv)
    · simp only [List.foldl_cons]
      exact ih _ r h1 hv

theorem pullOne_noop (cc : String) (validAddr : String → Bool) (now : Nat)
    (db : List Payout) (r : RemotePayout)
    (h : validAddr r.address = false ∨
      db.any (fun p => p.pid == r.pid) = true) :
    pullOne cc validAddr false now db r = db := by
  unfold pullOne
  rcases h with h | h
  · rw [if_pos (by simp [h])]
  · by_cases hv : (!validAddr r.address) = true
    · rw [if_pos hv]
    · rw [if_neg hv, if_pos h]

theorem pull_foldl_noop (cc : String) (validAddr : String → Bool) (now : Nat)
    (rs : List RemotePayout) (db : List Payout)
    (h : ∀ r ∈ rs, validAddr r.address = true →
      db.any (fun p => p.pid == r.pid) = true) :
    rs.foldl (pullOne cc validAddr false now) db = db := by
  induction rs with
  | nil => rfl
  | cons r tl ih =>
    have hr : pullOne cc validAddr false now db r = db := by
      by_cases hv : validAddr r.address = true
      · exact pullOne_noop cc validAddr now db r
          (Or.inr (h r (List.mem_cons_self _ _) hv))
      · exact pullOne_noop cc validAddr now db r
          (Or.inl (by simpa using hv))
    simp only [List.foldl_cons, hr]
    exact ih (fun x hx => h x (List.mem_cons_of_mem _ hx))

/-- Claim C8: a real (non-simulated) `pull_payouts` run is idempotent for
a fixed remote result set: running it twice leaves exactly the store of
one run, because every candidate whose pid is already present (including
those just inserted) is skipped. -/
theorem pull_payouts_idempotent (cc : String) (validAddr : String → Bool)
    (now now' : Nat) (rs : List RemotePayout) (db : List Payout) :
    pull_payouts cc validAddr false now' (some rs)
        (pull_payouts cc validAddr false now (some rs) db) =
      pull_payouts cc validAddr false now (some rs) db := by
  unfold pull_payouts
  exact pull_foldl_noop cc validAddr now' rs _
    (fun r hr hv => pull_sees_all cc validAddr now rs db r hr hv)

/-! ### Association pass: fee-lookup failure aborts the whole loop -/

/-- A paid, not-yet-associated payout with txid `t1`. -/
def paidP1 : Payout :=
  ⟨1, "p4", "u4", "A", 1/2, "BTC", some "t1", false, false, none, some 3,
    none, none⟩

/-- A paid, not-yet-associated payout with txid `t2`. -/
def paidP2 : Payout :=
  ⟨2, "p5", "u5", "B", 1/4, "BTC", some "t2", false, false, none, some 3,
    none, none⟩

/-- Fee lookup that raises for `t1` and succeeds for `t2`. -/
def c4fee : String → Option ℚ :=
  fun t => if t == "t2" then some (1/1000) else none

/-- Claim C4 evaluated at its failing input: with two txid groups where
the fee lookup fails for the first-iterated txid `t1` and succeeds for
`t2`, the final loop evaluates `tx_fees[t1]`, raising `KeyError`; the
`crontab` wrapper aborts the pass, so `t2` — whose fee lookup succeeded —
is never pushed and no payout is associated this cycle. -/
theorem associate_all_fee_failure_aborts_pass :
    (associate_all "BTC" c4fee (fun _ => true) false 9
        [paidP1, paidP2]).2 = [] ∧
    (associate_all "BTC" c4fee (fun _ => true) false 9
        [paidP1, paidP2]).1 = [paidP1, paidP2] ∧
    c4fee "t2" = some (1/1000) :=
  ⟨rfl, rfl, rfl⟩

/-! ### Confirmation pass: lookup failure aborts the cycle -/

theorem collectConfirmed_abort (minConfirms : Nat)
    (lookup : String → Option Nat) (tids : List String) (t : String)
    (h1 : t ∈ tids) (h2 : lookup t = none) :
    collectConfirmed minConfirms lookup tids = none := by
  induction tids with
  | nil => cases h1
  | cons x tl ih =>
    rcases List.mem_cons.mp h1 with h | h
    · subst h
      unfold collectConfirmed
      rw [h2]
    · unfold collectConfirmed
      cases hx : lookup x with
      | none => rfl
      | some c => rw [ih h]

/-- Wallet lookup failing for txid `a`, succeeding for txid `b`. -/
def c5lookup : String → Option Nat :=
  fun t => if t == "b" then some 100 else none

/-- Counterexample to claim C5 as stated: candidate `b` has 100 > 12
confirmations, but the lookup failure on candidate `a` aborts the whole
pass and nothing is pushed. -/
theorem confirm_trans_lookup_failure_blocks_all :
    confirm_trans 12 true (some ["a", "b"]) c5lookup false = none ∧
    c5lookup "b" = some 100 ∧ 12 < 100 :=
  ⟨rfl, rfl, by decide⟩

/-- Claim C5 (amended): a wallet transaction-lookup failure for any
candidate aborts the whole confirmation pass — the exception propagates
out of the loop to the `crontab` wrapper, the collected set is abandoned,
and no confirmation is pushed that cycle. -/
theorem confirm_trans_aborts_on_lookup_failure (minConfirms : Nat)
    (pokeOk : Bool) (tids : List String) (lookup : String → Option Nat)
    (simulate : Bool) (t : String) (h1 : t ∈ tids) (h2 : lookup t = none) :
    confirm_trans minConfirms pokeOk (some tids) lookup simulate = none := by
  cases tids with
  | nil => cases h1
  | cons x tl =>
    unfold confirm_trans
    by_cases hp : pokeOk = false
    · rw [if_pos hp]
    · rw [if_neg hp]
      have hc := collectConfirmed_abort minConfirms lookup (x :: tl) t h1 h2
      simp only [hc]

/-- Witness for the amended C5. -/
theorem confirm_trans_aborts_on_lookup_failure_witness :
    ("a" ∈ ["a", "b"] ∧ (fun _ : String => (none : Option Nat)) "a" = none) ∧
    confirm_trans 12 true (some ["a", "b"]) (fun _ => none) false = none :=
  ⟨⟨by decide, rfl⟩,
   confirm_trans_aborts_on_lookup_failure 12 true ["a", "b"] (fun _ => none)
     false "a" (by decide) rfl⟩

/-! ### Manual reset -/

/-- Claim C10: `reset_all_locked` (real run) maps every row through
`resetOne`, which clears `locked` on every row regardless of its
currency and leaves every other field of every row unchanged. -/
theorem reset_all_locked_spec (db : List Payout) :
    reset_all_locked false db = db.map resetOne ∧
    ∀ p : Payout,
      (resetOne p).locked = false ∧
      (resetOne p).txid = p.txid ∧
      (resetOne p).lock_time = p.lock_time ∧
      (resetOne p).paid_time = p.paid_time ∧
      (resetOne p).assoc_time = p.assoc_time ∧
      (resetOne p).pull_time = p.pull_time ∧
      (resetOne p).associated = p.associated ∧
      (resetOne p).amount = p.amount ∧
      (resetOne p).address = p.address ∧
      (resetOne p).currency_code = p.currency_code ∧
      (resetOne p).pid = p.pid ∧
      (resetOne p).user = p.user ∧
      (resetOne p).id = p.id := by
  refine ⟨rfl, fun p => ?_⟩
  unfold resetOne
  split_ifs with h
  · exact ⟨rfl, rfl, rfl, rfl, rfl, rfl, rfl, rfl, rfl, rfl, rfl, rfl, rfl⟩
  · have hl : p.locked = false := by simpa using h
    exact ⟨hl, rfl, rfl, rfl, rfl, rfl, rfl, rfl, rfl, rfl, rfl, rfl, rfl⟩

/-! ### Simulation mode -/

theorem pullOne_simulate (cc : String) (validAddr : String → Bool)
    (now : Nat) (db : List Payout) (r : RemotePayout) :
    pullOne cc validAddr true now db r = db := by
  unfold pullOne
  split_ifs with hA hB hC
  · rfl
  · rfl
  · rfl
  · exact absurd rfl hC

theorem pull_payouts_simulate (cc : String) (validAddr : String → Bool)
    (now : Nat) (remote : Option (List RemotePayout)) (db : List Payout) :
    pull_payouts cc validAddr true now remote db = db := by
  unfold pull_payouts
  cases remote with
  | none => rfl
  | some rs =>
    induction rs generalizing db with
    | nil => rfl
    | cons r tl ih =>
      simp only [List.foldl_cons, pullOne_simulate]
      exact ih db

theorem send_payout_simulate_db (cc : String) (minOut : ℚ) (limit : Nat)
    (env : WalletEnv) (now : Nat) (db : List Payout) :
    (send_payout cc minOut limit env true false now db).db = db := by
  unfold send_payout
  by_cases h1 : env.poke_ok = false
  · rw [if_pos h1]
  · rw [if_neg h1]
    by_cases h2 : (selectPayouts cc db).isEmpty = true
    · rw [if_pos h2]
    · rw [if_neg h2]
      by_cases h3 : env.balance < spTotal cc minOut limit db
      · rw [if_pos h3]
      · rw [if_neg h3]
        by_cases h4 : spTotal cc minOut limit db = 0
        · rw [if_pos h4]
        · rw [if_neg h4, if_pos rfl, if_neg (by simp)]

theorem send_payout_simulate_submitted (cc : String) (minOut : ℚ)
    (limit : Nat) (env : WalletEnv) (answerY : Bool) (now : Nat)
    (db : List Payout) :
    (send_payout cc minOut limit env true answerY now db).submitted =
      none := by
  unfold send_payout
  by_cases h1 : env.poke_ok = false
  · rw [if_pos h1]
  · rw [if_neg h1]
    by_cases h2 : (selectPayouts cc db).isEmpty = true
    · rw [if_pos h2]
    · rw [if_neg h2]
      by_cases h3 : env.balance < spTotal cc minOut limit db
      · rw [if_pos h3]
      · rw [if_neg h3]
        by_cases h4 : spTotal cc minOut limit db = 0
        · rw [if_pos h4]
        · rw [if_neg h4, if_pos rfl]
          by_cases h5 : answerY = true
          · rw [if_pos h5]
          · rw [if_neg h5]

theorem assocLoop_simulate (cc : String) (feeLookup : String → Option ℚ)
    (pushOk : String → Bool) (now : Nat) :
    ∀ (ts : List String) (db : List Payout) (acc : List String),
      (assocLoop cc feeLookup pushOk true now ts db acc).1 = db := by
  intro ts
  induction ts with
  | nil => intro db acc; rfl
  | cons t tl ih =>
    intro db acc
    unfold assocLoop
    cases h : feeLookup t with
    | none => rfl
    | some fee =>
      show (assocLoop cc feeLookup pushOk true now tl db acc).1 = db
      exact ih db acc

theorem associate_all_simulate (cc : String) (feeLookup : String → Option ℚ)
    (pushOk : String → Bool) (now : Nat) (db : List Payout) :
    (associate_all cc feeLookup pushOk true now db).1 = db :=
  assocLoop_simulate cc feeLookup pushOk now _ db []

/-- Counterexample to claim C6 as stated: `init_db` accepts the simulate
flag but never consults it — with simulate=true it still drops and
recreates the table, wiping a non-empty store. -/
theorem init_db_simulate_wipes : init_db true [sampleP] ≠ [sampleP] := by
  simp [init_db]

/-- Claim C6 (amended): with simulate=true, `pull_payouts`,
`send_payout` (when the operator declines the fake-txid prompt),
`associate_all`, `local_associate_locked`, `local_associate_all_locked`
and `reset_all_locked` leave the durable store unchanged, and
`send_payout` calls `send_many` on no simulated run whatever the operator
answers.  `init_db` is excluded: it ignores the flag
(`init_db_simulate_wipes`), and `send_payout` with an operator `y`
commits a fake txid. -/
theorem simulate_mode_preserves_store (cc : String) (minOut : ℚ)
    (limit : Nat) (validAddr : String → Bool)
    (remote : Option (List RemotePayout)) (env : WalletEnv)
    (feeLookup : String → Option ℚ) (pushOk : String → Bool) (pid : Nat)
    (tx : String) (answerY : Bool) (now : Nat) (db : List Payout) :
    pull_payouts cc validAddr true now remote db = db ∧
    (send_payout cc minOut limit env true false now db).db = db ∧
    (send_payout cc minOut limit env true answerY now db).submitted =
      none ∧
    (associate_all cc feeLookup pushOk true now db).1 = db ∧
    local_associate_locked pid tx true db = db ∧
    local_associate_all_locked cc tx true db = db ∧
    reset_all_locked true db = db :=
  ⟨pull_payouts_simulate cc validAddr now remote db,
   send_payout_simulate_db cc minOut limit env now db,
   send_payout_simulate_submitted cc minOut limit env answerY now db,
   associate_all_simulate cc feeLookup pushOk now db,
   rfl, rfl, rfl⟩

/-! ### The association invariant -/

/-- The weakened store invariant: `associated = true` implies
`transaction_id` is non-null. -/
def assocInv (db : List Payout) : Prop :=
  ∀ p ∈ db, p.associated = true → p.txid ≠ none

theorem assocInv_map (db : List Payout) (g : Payout → Payout)
    (hg : ∀ p, (g p).associated = p.associated ∧
      ((g p).txid = p.txid ∨ (g p).txid ≠ none))
    (h : assocInv db) : assocInv (db.map g) := by
  intro q hq ha
  obtain ⟨p, hp, rfl⟩ := List.mem_map.mp hq
  rcases (hg p).2 with h2 | h2
  · rw [h2]
    exact h p hp (by rw [← (hg p).1]; exact ha)
  · exact h2

theorem spSuccessOne_assoc_txid (cc : String) (survA : List String)
    (t : String) (now : Nat) (excl : List String) (p : Payout) :
    (spSuccessOne cc survA t now excl p).associated = p.associated ∧
    ((spSuccessOne cc survA t now excl p).txid = p.txid ∨
      (spSuccessOne cc survA t now excl p).txid ≠ none) := by
  unfold spSuccessOne successOne preSendOne
  split_ifs <;> simp

theorem spSimSuccessOne_assoc_txid (cc : String) (survA : List String)
    (t : String) (now : Nat) (p : Payout) :
    (spSimSuccessOne cc survA t now p).associated = p.associated ∧
    ((spSimSuccessOne cc survA t now p).txid = p.txid ∨
      (spSimSuccessOne cc survA t now p).txid ≠ none) := by
  unfold spSimSuccessOne successOne
  split_ifs <;> simp

theorem spAmbiguousOne_assoc_txid (cc : String) (now : Nat)
    (excl : List String) (p : Payout) :
    (spAmbiguousOne cc now excl p).associated = p.associated ∧
    ((spAmbiguousOne cc now excl p).txid = p.txid ∨
      (spAmbiguousOne cc now excl p).txid ≠ none) := by
  unfold spAmbiguousOne preSendOne
  split_ifs <;> simp

theorem spSafeFailOne_assoc_txid (cc : String) (now : Nat)
    (excl : List String) (p : Payout) :
    (spSafeFailOne cc now excl p).associated = p.associated ∧
    ((spSafeFailOne cc now excl p).txid = p.txid ∨
      (spSafeFailOne cc now excl p).txid ≠ none) := by
  unfold spSafeFailOne safeFailOne preSendOne
  split_ifs <;> simp

theorem send_payout_preserves_assocInv (cc : String) (minOut : ℚ)
    (limit : Nat) (env : WalletEnv) (simulate answerY : Bool) (now : Nat)
    (db : List Payout) (h : assocInv db) :
    assocInv ((send_payout cc minOut limit env simulate answerY now db).db) := by
  unfold send_payout
  cases henv : env.send_result with
  | some t =>
    split_ifs with h1 h2 h3 h4 h5 h6
    · exact h
    · exact h
    · exact h
    · exact h
    · exact assocInv_map db _ (spSimSuccessOne_assoc_txid cc _ _ now) h
    · exact h
    · exact assocInv_map db _ (spSuccessOne_assoc_txid cc _ t now _) h
    · exact assocInv_map db _ (spSuccessOne_assoc_txid cc _ t now _) h
  | none =>
    split_ifs with h1 h2 h3 h4 h5 h6 h7
    · exact h
    · exact h
    · exact h
    · exact h
    · exact assocInv_map db _ (spSimSuccessOne_assoc_txid cc _ _ now) h
    · exact h
    · exact assocInv_map db _ (spSafeFailOne_assoc_txid cc now _) h
    · exact assocInv_map db _ (spAmbiguousOne_assoc_txid cc now _) h

theorem pullOne_preserves_assocInv (cc : String) (validAddr : String → Bool)
    (simulate : Bool) (now : Nat) (db : List Payout) (r : RemotePayout)
    (h : assocInv db) : assocInv (pullOne cc validAddr simulate now db r) := by
  unfold pullOne
  split_ifs with h1 h2 h3
  · exact h
  · exact h
  · exact h
  · intro q hq ha
    rcases List.mem_append.mp hq with hq | hq
    · exact h q hq ha
    · have hq' := List.mem_singleton.mp hq
      subst hq'
      exact absurd ha (by simp)

theorem pull_foldl_preserves_assocInv (cc : String)
    (validAddr : String → Bool) (simulate : Bool) (now : Nat)
    (rs : List RemotePayout) :
    ∀ db : List Payout, assocInv db →
      assocInv (rs.foldl (pullOne cc validAddr simulate now) db) := by
  induction rs with
  | nil => intro db h; exact h
  | cons r tl ih =>
    intro db h
    exact ih _ (pullOne_preserves_assocInv cc validAddr simulate now db r h)

theorem markAssociated_preserves_assocInv (cc : String) (t : String)
    (now : Nat) (db : List Payout) (h : assocInv db) :
    assocInv (markAssociated cc t now db) := by
  intro q hq ha
  simp only [markAssociated, List.mem_map] at hq
  obtain ⟨p, hp, hpe⟩ := hq
  by_cases hc : (isAssocCandidate cc p && p.txid == some t) = true
  · rw [if_pos hc] at hpe
    subst hpe
    have htx : p.txid = some t := by
      have h2 := (Bool.and_eq_true _ _).mp hc
      exact beq_iff_eq.mp h2.2
    simp [htx]
  · rw [if_neg hc] at hpe
    subst hpe
    exact h p hp ha

theorem assocLoop_preserves_assocInv (cc : String)
    (feeLookup : String → Option ℚ) (pushOk : String → Bool)
    (simulate : Bool) (now : Nat) :
    ∀ (ts : List String) (db : List Payout) (acc : List String),
      assocInv db →
      assocInv ((assocLoop cc feeLookup pushOk simulate now ts db acc).1) := by
  intro ts
  induction ts with
  | nil => intro db acc h; exact h
  | cons t tl ih =>
    intro db acc h
    unfold assocLoop
    cases hf : feeLookup t with
    | none => exact h
    | some fee =>
      split_ifs with hs hpo
      · exact ih db acc h
      · exact ih _ _ (markAssociated_preserves_assocInv cc t now db h)
      · exact ih db _ h

theorem local_associate_all_locked_preserves_assocInv (cc : String)
    (tx : String) (simulate : Bool) (db : List Payout) (h : assocInv db) :
    assocInv (local_associate_all_locked cc tx simulate db) := by
  unfold local_associate_all_locked
  split_ifs with hs
  · exact h
  · refine assocInv_map db _ ?_ h
    intro p
    constructor
    · split_ifs <;> rfl
    · split_ifs with hc
      · right; simp
      · left; rfl

theorem reset_all_locked_preserves_assocInv (simulate : Bool)
    (db : List Payout) (h : assocInv db) :
    assocInv (reset_all_locked simulate db) := by
  unfold reset_all_locked
  split_ifs with hs
  · exact h
  · refine assocInv_map db _ ?_ h
    intro p
    unfold resetOne
    constructor
    · split_ifs <;> rfl
    · left; split_ifs <;> rfl

theorem applyOp_preserves_assocInv (cc : String) (minOut : ℚ)
    (db : List Payout) (op : ClientOp) (h : assocInv db) :
    assocInv (applyOp cc minOut db op) := by
  cases op with
  | pullOp v remote s n =>
    show assocInv (pull_payouts cc v s n remote db)
    unfold pull_payouts
    cases remote with
    | none => exact h
    | some rs => exact pull_foldl_preserves_assocInv cc v s n rs db h
  | sendOp env limit s aY n =>
    exact send_payout_preserves_assocInv cc minOut limit env s aY n db h
  | assocAllOp fl po s n =>
    exact assocLoop_preserves_assocInv cc fl po s n _ db [] h
  | localAssocOp pid tx s => exact h
  | localAssocAllOp tx s =>
    exact local_associate_all_locked_preserves_assocInv cc tx s db h
  | resetLockedOp s => exact reset_all_locked_preserves_assocInv s db h
  | initDbOp s => intro q hq ha; cases hq

/-- Claim C7 (amended): every client operation, and hence every sequence
of client operations, preserves the invariant that `associated = true`
implies `transaction_id` is non-null.  The original stronger invariant
(which also requires `locked = false`) is reachable-state false, see
`associated_locked_state_reachable`. -/
theorem client_ops_preserve_assoc_invariant (cc : String) (minOut : ℚ)
    (ops : List ClientOp) (db : List Payout) (h : assocInv db) :
    assocInv (ops.foldl (applyOp cc minOut) db) := by
  revert db
  induction ops with
  | nil => intro db h; exact h
  | cons op tl ih =>
    intro db h
    simp only [List.foldl_cons]
    exact ih _ (applyOp_preserves_assocInv cc minOut db op h)

/-- The documented manual-recovery sequence: pull one payout; a
disbursement cycle that ends in the ambiguous failure (balance moved, no
txid); `local_associate_all_locked` writing the operator-supplied txid;
an association pass whose push succeeds. -/
def cexOps : List ClientOp :=
  [ .pullOp (fun _ => true) (some [⟨"u1", "A", 1/10, "p1"⟩]) false 1,
    .sendOp ⟨true, 1, none, 0⟩ 10000 false false 2,
    .localAssocAllOp "tx1" false,
    .assocAllOp (fun _ => some (1/1000)) (fun _ => true) false 3 ]

/-- Counterexample to claim C7 as stated: from the empty store, the
sequence `cexOps` produces a row with `associated = true` and
`locked = true`, violating the invariant clause `locked = false`. -/
theorem associated_locked_state_reachable :
    ¬ (∀ p ∈ cexOps.foldl (applyOp "BTC" (1/100000000)) [],
        p.associated = true → p.txid ≠ none ∧ p.locked = false) := by
  with_unfolding_all decide

/-- Witness for the amended C7: the invariant holds for the empty store
and is preserved across the concrete sequence `cexOps`. -/
theorem client_ops_preserve_assoc_invariant_witness :
    assocInv [] ∧
    assocInv (cexOps.foldl (applyOp "BTC" (1/100000000)) []) :=
  ⟨(by intro p hp ha; cases hp),
   client_ops_preserve_assoc_invariant "BTC" (1/100000000) cexOps []
     (by intro p hp ha; cases hp)⟩
